import Mathlib

/-!
Verification of the SuperChis production programmer (`chismaker`).

This file gives a shallow embedding of the two source files:

* `device_adapter.py` — the frame codec and the `SuperChisDevice` driver
  (command frames, mode set, flash mapping set, CFI parse, sector erase).
* `chismaker.py` — the per-device job plans (quality check, production,
  backup), modelled as pure trace generators.

Conventions of the embedding:

* Bytes and machine integers are `Nat`; little-endian fields are explicit
  byte lists (`le16`, `le32`).  Python `struct.pack("<H", n)` raises for
  `n ≥ 2^16`, so theorems about emitted frames carry the corresponding
  size-fits hypotheses.
* Serial / device interaction is modelled as traces: driver-level
  operations produce `List Act` (individual `writeRom`/`readRom` commands
  and sleeps), and job plans produce `List PEv` where each driver call of
  the plan is one event.  Device responses are supplied by oracle
  functions, and the worker's `self.running` cancel flag is an oracle
  `sched : Nat → Bool` indexed by the number of times the flag has been
  read (Python's `and` short-circuit is respected when counting reads).
* Log messages are elided: a `PEv.log` event records that a log was
  emitted, not its text.  Python float expressions `int(x / y * k)` are
  modelled as `x * k / y` in `Nat`; at every value these theorems touch
  the float computation is exact or the truncation is unaffected.
* Python `while` loops over a strictly increasing counter are modelled by
  structural recursion on a fuel argument that is always instantiated
  large enough (the loops advance by at least one byte per iteration).
-/

/-! ### Constants from `device_adapter.py` and `chismaker.py` -/

def MAGIC_ADDRESS : Nat := 0x01FFFFFE

def MAGIC_VALUE : Nat := 0xA55A

def MAGIC_FLASH_MAP_VALUE : Nat := 0xA558

/-- The magic word address `MAGIC_ADDRESS >> 1` used by `set_sc_mode` and
`set_flashmapping`. -/
def magicWord : Nat := MAGIC_ADDRESS >>> 1

/-- The 32 MiB segment size (`segment_size = 32 * 1024 * 1024`). -/
def SEGMENT : Nat := 32 * 1024 * 1024

/-! ### Frame codec (`device_adapter.py`, command construction)

Each command frame is `[size:u16 LE][opcode:u8][body][crc:u16 = 0]`. -/

/-- Little-endian 16-bit encoding, as produced by `struct.pack("<H", n)`
for `n < 2^16` (the embedding is total; theorems add the bound). -/
def le16 (n : Nat) : List Nat := [n % 256, n / 256 % 256]

/-- Little-endian 32-bit encoding, as produced by `struct.pack("<I", n)`. -/
def le32 (n : Nat) : List Nat :=
  [n % 256, n / 256 % 256, n / 65536 % 256, n / 16777216 % 256]

/-- Decode the first two bytes of a frame as a little-endian u16. -/
def dec16 (l : List Nat) : Nat := l.getD 0 0 + 256 * l.getD 1 0

/-- Frame built by `SuperChisDevice.writeRom` (opcode `0xf5`, word address,
size field `2 + 1 + 4 + len(dat) + 2`). -/
def writeRomFrame (addrWord : Nat) (dat : List Nat) : List Nat :=
  le16 (2 + 1 + 4 + dat.length + 2) ++ [0xf5] ++ le32 addrWord ++ dat ++ [0, 0]

/-- Frame built by `SuperChisDevice.readRom` (opcode `0xf6`; the address
field is the word address shifted left by one, i.e. a byte address). -/
def readRomFrame (addrWord lengthByte : Nat) : List Nat :=
  le16 (2 + 1 + 4 + 2 + 2) ++ [0xf6] ++ le32 (addrWord * 2) ++ le16 lengthByte ++ [0, 0]

/-- Frame built by `SuperChisDevice.writeRam` (opcode `0xf7`, byte address). -/
def writeRamFrame (addr : Nat) (dat : List Nat) : List Nat :=
  le16 (2 + 1 + 4 + dat.length + 2) ++ [0xf7] ++ le32 addr ++ dat ++ [0, 0]

/-- Frame built by `SuperChisDevice.readRam` (opcode `0xf8`). -/
def readRamFrame (addr lengthByte : Nat) : List Nat :=
  le16 (2 + 1 + 4 + 2 + 2) ++ [0xf8] ++ le32 addr ++ le16 lengthByte ++ [0, 0]

/-- Frame built by `SuperChisDevice.programRom` (opcode `0xf4`, byte
address, u16 `buffer_write_bytes`, then the data). -/
def programRomFrame (addrByte : Nat) (data : List Nat) (bufferWriteBytes : Nat) : List Nat :=
  le16 (2 + 1 + 4 + 2 + data.length + 2) ++ [0xf4] ++ le32 addrByte ++
    le16 bufferWriteBytes ++ data ++ [0, 0]

/-! ### Driver-level actions (`device_adapter.py`) -/

/-- A single driver-level serial interaction: `wr` is a `writeRom` of one
16-bit value, `rd` is a `readRom` of `len` bytes, `sleep` is a
`time.sleep` in milliseconds. -/
inductive Act where
  | wr (addrWord value : Nat)
  | rd (addrWord lenByte : Nat)
  | sleep (ms : Nat)
deriving DecidableEq, Repr

/-- Is this action a `writeRom` to the given word address? -/
def isWrTo (a : Nat) : Act → Bool
  | .wr x _ => x == a
  | _ => false

/-- Write trace of `SuperChisDevice.set_sc_mode`: the four-write unlock
sequence against the magic word address. -/
def set_sc_mode_acts (sdram sd_enable write_enable sram_bank ctrl : Nat) : List Act :=
  let config1 := (ctrl <<< 4) |||
    (sdram ||| (sd_enable <<< 1) ||| (write_enable <<< 2) ||| (sram_bank <<< 3))
  [.wr magicWord MAGIC_VALUE, .wr magicWord MAGIC_VALUE,
   .wr magicWord config1, .wr magicWord config1]

/-- The per-entry write pattern of `SuperChisDevice.set_flashmapping`,
iterated over the index list (`for i in range(8)`).  `m.getD i 0` is
`mapping[i]` (indices are all in range when `m.length = 8`). -/
def flashmapWrites (m : List Nat) : List Nat → List Act
  | [] => []
  | i :: rest =>
    [.wr magicWord MAGIC_FLASH_MAP_VALUE, .wr magicWord MAGIC_FLASH_MAP_VALUE,
     .wr magicWord (m.getD i 0), .wr magicWord (m.getD i 0)] ++ flashmapWrites m rest

/-- Write trace of `SuperChisDevice.set_flashmapping`: `none` models the
`ValueError` raised (before any device write) when `len(mapping) != 8`. -/
def set_flashmapping (m : List Nat) : Option (List Act) :=
  if m.length ≠ 8 then none else some (flashmapWrites m (List.range 8))

/-- Poll phase of `SuperChisDevice.eraseSector`: read word `a` (2 bytes);
stop when the little-endian value is `0xFFFF`, otherwise sleep 100 ms and
poll again.  `polls` is the oracle list of successive 16-bit values the
device returns; `none` means the oracle list is exhausted without the
erase ever completing (the Python loop would still be running). -/
def eraseSectorPoll (a : Nat) : List Nat → Option (List Act)
  | [] => none
  | v :: rest =>
    if v = 0xffff then some [.rd a 2]
    else
      match eraseSectorPoll a rest with
      | none => none
      | some t => some ([.rd a 2, .sleep 100] ++ t)

/-- Trace of `SuperChisDevice.eraseSector addr_word sector_size_words`:
the six-command AMD erase sequence, a 10 ms wait, then the poll loop.
(The `sector_size_words` argument is unused by the source as well.) -/
def eraseSector_acts (a z : Nat) (polls : List Nat) : Option (List Act) :=
  match eraseSectorPoll a polls with
  | none => none
  | some t =>
    some ([.wr 0x555 0xaa, .wr 0x2aa 0x55, .wr 0x555 0x80,
           .wr 0x555 0xaa, .wr 0x2aa 0x55, .wr a 0x30, .sleep 10] ++ t)

/-- First index at which the poll oracle reads `0xFFFF` — this is the
specification-side description of "poll until the value equals 0xFFFF". -/
def idxFFFF : List Nat → Option Nat
  | [] => none
  | v :: rest => if v = 0xffff then some 0 else (idxFFFF rest).map (· + 1)

/-- Closed form of the poll trace: `n` unsuccessful polls (each a 2-byte
read of word `a` followed by a 100 ms sleep) and one final successful
read. -/
def pollTr (a : Nat) : Nat → List Act
  | 0 => [.rd a 2]
  | n + 1 => .rd a 2 :: .sleep 100 :: pollTr a n

/-! ### CFI parse (`SuperChisDevice.getRomCFI`) -/

/-- Geometry record returned by `getRomCFI`. -/
structure CfiInfo where
  device_size : Nat
  sector_count : Nat
  sector_size : Nat
  buffer_write_bytes : Nat
deriving DecidableEq, Repr

/-- `struct.unpack("<H", cfi[i:i+2])[0]`: the little-endian 16-bit value at
byte offset `i` of the response. -/
def u16at (cfi : List Nat) (i : Nat) : Nat := cfi.getD i 0 + 256 * cfi.getD (i + 1) 0

/-- Parse of the 20-byte CFI response, transcribed from
`SuperChisDevice.getRomCFI` (byte slices `[0:2]`, `[6:8]`, `[12:14]`,
`[14:16]`, `[16:18]`, `[18:20]`). -/
def getRomCFI_parse (cfi : List Nat) : CfiInfo :=
  let t0 := u16at cfi 0
  let t3 := u16at cfi 6
  let t6 := u16at cfi 12
  let t7 := u16at cfi 14
  let t8 := u16at cfi 16
  let t9 := u16at cfi 18
  { device_size := 2 ^ t0
    sector_count := (((t7 &&& 0xff) <<< 8) ||| (t6 &&& 0xff)) + 1
    sector_size := ((((t9 &&& 0xff) <<< 8) ||| (t8 &&& 0xff))) * 256
    buffer_write_bytes := if t3 ≠ 0 then 2 ^ t3 else 0 }

/-- The query sequence of `getRomCFI`: write `0x98` to word `0x55`, read
20 bytes at word `0x27`, write `0xF0` to word `0x00`. -/
def getRomCFI_acts : List Act := [.wr 0x55 0x98, .rd 0x27 20, .wr 0x00 0xf0]

/-- The claim's `v[i]`: the 20 response bytes interpreted as little-endian
16-bit values. -/
def cfiWord (cfi : List Nat) (i : Nat) : Nat := u16at cfi (2 * i)

/-! ### Plan-level events (`chismaker.py` workers)

Each worker's `run` method is modelled as a pure function producing a
trace of plan events.  One `PEv` is either a UI event (`log`, `progress`,
`finished`) or one driver call.  Flash-touching calls additionally record
the *logical* byte offset the plan is working on (the worker's own loop
variable `addr`/`written`/`verified`/`read_bytes`), next to the segment
-local address actually passed to the driver. -/

inductive PEv where
  | log
  | progress (pct : Nat)
  | finished (ok : Bool)
  | setMode (sdram sd_enable write_enable sram_bank ctrl : Nat)
  | setMapping (m : List Nat)
  | getCFI
  | erase (logical addrWord szWords : Nat)
  | eraseChip
  | program (logical addrByte : Nat) (data : List Nat) (buf : Nat)
  | readF (logical addrWord lenByte : Nat)
  | writeRam (addr : Nat) (dat : List Nat)
  | readRam (addr lenByte : Nat)
  | sramSel (bank : Nat)
  | unlockPPB
  | sleep
deriving DecidableEq, Repr

/-- The identity-plus-offset mapping the workers program:
`[0 + 8*s, 1 + 8*s, ..., 7 + 8*s]` for segment `s` (`mapping_offset =
current_segment * 8`). -/
def mapSeg (s : Nat) : List Nat :=
  [8 * s, 8 * s + 1, 8 * s + 2, 8 * s + 3, 8 * s + 4, 8 * s + 5, 8 * s + 6, 8 * s + 7]

/-! ### The segment-mapping invariant

`mappingOk m0 tr` walks a trace, tracking the first entry of the flash
mapping that is active (starting from `m0`; `unlockPPB` internally resets
the mapping to identity, see `device_adapter.unlockPPB`).  At every
flash-touching event with logical offset `L` it checks the claimed
invariant `mapping[0] = (L / SEGMENT) * 8`; `getCFI` and `eraseChip`
address the low window, so they require the identity mapping. -/

def accessOk (m0 : Nat) : PEv → Bool
  | .erase L _ _ => m0 == L / SEGMENT * 8
  | .program L _ _ _ => m0 == L / SEGMENT * 8
  | .readF L _ _ => m0 == L / SEGMENT * 8
  | .getCFI => m0 == 0
  | .eraseChip => m0 == 0
  | _ => true

def mapFold (m0 : Nat) : PEv → Nat
  | .setMapping (x :: _) => x
  | .unlockPPB => 0
  | _ => m0

def mappingOk (m0 : Nat) : List PEv → Bool
  | [] => true
  | e :: t => accessOk m0 e && mappingOk (mapFold m0 e) t

/-! ### `ProductionWorker.run` -/

/-- Python's `sector_count = (file_size - 1) // sector_size + 1` computed
with floor division on signed integers (for an empty image this is `0`). -/
def sectorCount (size ss : Nat) : Nat :=
  (((size : Int) - 1).fdiv (ss : Int) + 1).toNat

/-- Erase phase of `ProductionWorker.run`: one iteration per sector index,
checking the cancel flag first, retuning the mapping on segment change,
erasing at the segment-local word address, and emitting progress
`(i+1) * 50 / sector_count`.  Returns the events plus `some` final
flag-read counter, or `none` when the plan returned after a cancel (the
cancel events are already in the trace). -/
def prodEraseLoop (sched : Nat → Bool) (ss cnt : Nat) :
    List Nat → Nat → Nat → List PEv × Option Nat
  | [], c, _ => ([], some c)
  | i :: rest, c, cs =>
    if sched c then
      let addr := i * ss
      let ns := addr / SEGMENT
      let mEvs := if ns ≠ cs then [PEv.setMapping (mapSeg ns), PEv.log] else []
      let cs1 := if ns ≠ cs then ns else cs
      let evs := mEvs ++
        [PEv.erase addr (addr % SEGMENT / 2) (ss / 2), PEv.progress ((i + 1) * 50 / cnt)] ++
        (if (i + 1) % 10 = 0 ∨ i + 1 = cnt then [PEv.log] else [])
      let p := prodEraseLoop sched ss cnt rest (c + 1) cs1
      (evs ++ p.1, p.2)
    else ([PEv.log, PEv.finished false], none)

/-- Program phase of `ProductionWorker.run`: `while written < file_size and
self.running`, 2048-byte chunks padded with `0xFF`, `programRom` at the
segment-local byte address; on a bad ack the worker raises (`none`).
Normal exit returns `some` flag-read counter (the condition's
`self.running` read counts only when `written < file_size`). -/
def prodProgLoop (sched ack : Nat → Bool) (size : Nat) (rom1 : List Nat) (bs : Nat) :
    Nat → Nat → Nat → Nat → List PEv × Option Nat
  | 0, _, c, _ => ([], some c)
  | fuel + 1, w, c, cs =>
    if w < size then
      if sched c then
        let ns := w / SEGMENT
        let mEvs := if ns ≠ cs then [PEv.setMapping (mapSeg ns), PEv.log] else []
        let cs1 := if ns ≠ cs then ns else cs
        let chunk0 := (rom1.drop w).take 2048
        let chunk := chunk0 ++ List.replicate (2048 - chunk0.length) 0xff
        if ack w then
          let w1 := w + 2048
          let evs := mEvs ++ [PEv.program w (w % SEGMENT) chunk bs] ++
            (if w1 % 65536 = 0 ∨ w1 ≥ size then [PEv.log] else []) ++
            [PEv.progress (50 + w1 * 50 / size)]
          let p := prodProgLoop sched ack size rom1 bs fuel w1 (c + 1) cs1
          (evs ++ p.1, p.2)
        else (mEvs ++ [PEv.program w (w % SEGMENT) chunk bs], none)
      else ([], some (c + 1))
    else ([], some c)

/-- Verify phase of `ProductionWorker.run`: 4096-byte read-backs compared
against the image; a mismatch raises (`none`).  `vread L len` is the
oracle for the bytes the device returns for the read that starts at
logical offset `L`. -/
def prodVerLoop (sched : Nat → Bool) (vread : Nat → Nat → List Nat) (size : Nat)
    (rom1 : List Nat) : Nat → Nat → Nat → Nat → List PEv × Option Nat
  | 0, _, c, _ => ([], some c)
  | fuel + 1, v, c, cs =>
    if v < size then
      if sched c then
        let ns := v / SEGMENT
        let mEvs := if ns ≠ cs then [PEv.setMapping (mapSeg ns)] else []
        let cs1 := if ns ≠ cs then ns else cs
        let len := min 4096 (size - v)
        let expected := (rom1.drop v).take len
        let ev := PEv.readF v (v % SEGMENT / 2) len
        if vread v len = expected then
          let v1 := v + len
          let evs := mEvs ++ [ev] ++ (if v1 % 1048576 = 0 ∨ v1 ≥ size then [PEv.log] else [])
          let p := prodVerLoop sched vread size rom1 fuel v1 (c + 1) cs1
          (evs ++ p.1, p.2)
        else (mEvs ++ [ev], none)
      else ([], some (c + 1))
    else ([], some c)

/-- Events before the erase loop (logs, write-enable mode, identity
mapping, sleep, CFI query, more logs). -/
def prodPre : List PEv :=
  [PEv.log, PEv.log, PEv.setMode 0 0 1 0 8, PEv.setMapping (mapSeg 0), PEv.sleep,
   PEv.log, PEv.getCFI, PEv.log, PEv.log]

/-- Events between the erase and program phases (log, re-enter write mode,
reset identity mapping, sleep). -/
def prodMid : List PEv :=
  [PEv.log, PEv.setMode 0 0 1 0 8, PEv.setMapping (mapSeg 0), PEv.sleep]

/-- `ProductionWorker.run` with the already-padded image and the sector
count precomputed.  `sched` is the cancel-flag oracle, `ack` the
per-chunk `programRom` acknowledgement oracle, `vread` the verify
read-back oracle; the CFI reply supplies `ss` (sector size) and `bs`
(buffer size). -/
def prodRunWithCnt (rom1 : List Nat) (cnt ss bs : Nat) (sched ack : Nat → Bool)
    (vread : Nat → Nat → List Nat) : List PEv :=
  let size := rom1.length
  let pe := prodEraseLoop sched ss cnt (List.range cnt) 0 0
  match pe.2 with
  | none => prodPre ++ pe.1
  | some c1 =>
    let pp := prodProgLoop sched ack size rom1 bs (size / 2048 + 2) 0 c1 0
    match pp.2 with
    | none => prodPre ++ pe.1 ++ prodMid ++ pp.1 ++ [PEv.log, PEv.finished false]
    | some c2 =>
      if sched c2 then
        let pv := prodVerLoop sched vread size rom1 (size + 1) 0 (c2 + 1) 0
        match pv.2 with
        | none => prodPre ++ pe.1 ++ prodMid ++ pp.1 ++
            [PEv.log, PEv.setMapping (mapSeg 0)] ++ pv.1 ++ [PEv.log, PEv.finished false]
        | some _ => prodPre ++ pe.1 ++ prodMid ++ pp.1 ++
            [PEv.log, PEv.setMapping (mapSeg 0)] ++ pv.1 ++
            [PEv.log, PEv.progress 100, PEv.finished true]
      else prodPre ++ pe.1 ++ prodMid ++ pp.1 ++ [PEv.log, PEv.finished false]

/-- `ProductionWorker.run` on a raw image: pad to even length with `0x00`,
then erase, program and verify. -/
def prodRun (rom : List Nat) (ss bs : Nat) (sched ack : Nat → Bool)
    (vread : Nat → Nat → List Nat) : List PEv :=
  let rom1 := if rom.length % 2 ≠ 0 then rom ++ [0] else rom
  prodRunWithCnt rom1 (sectorCount rom1.length ss) ss bs sched ack vread

/-! ### `BackupFlashWorker.run` -/

/-- Backup read loop: `while read_bytes < total_size and self.running`,
4 KiB reads at the segment-local word address, mapping retuned on segment
crossings, progress every 1 MiB and at the end. -/
def backupLoop (sched : Nat → Bool) (total : Nat) :
    Nat → Nat → Nat → Nat → List PEv × Nat
  | 0, _, c, _ => ([], c)
  | fuel + 1, rb, c, cs =>
    if rb < total then
      if sched c then
        let ns := rb / SEGMENT
        let mEvs := if ns ≠ cs then [PEv.setMapping (mapSeg ns), PEv.log] else []
        let cs1 := if ns ≠ cs then ns else cs
        let chunk := min 4096 (total - rb)
        let rb1 := rb + chunk
        let evs := mEvs ++ [PEv.readF rb (rb % SEGMENT / 2) chunk] ++
          (if rb1 % 1048576 = 0 ∨ rb1 ≥ total then [PEv.progress (rb1 * 100 / total), PEv.log]
           else [])
        let p := backupLoop sched total fuel rb1 (c + 1) cs1
        (evs ++ p.1, p.2)
      else ([], c + 1)
    else ([], c)

/-- Events before the backup loop (log, progress 0, read mode, identity
mapping, sleep, log, CFI query, logs). -/
def backupPre : List PEv :=
  [PEv.log, PEv.progress 0, PEv.setMode 0 0 0 0 8, PEv.setMapping (mapSeg 0), PEv.sleep,
   PEv.log, PEv.getCFI, PEv.log, PEv.log]

/-- `BackupFlashWorker.run`: backup `min backup_size device_size` bytes;
after the loop the worker re-reads the cancel flag and reports
`Finished{ok=false}` when cancelled. -/
def backupRun (sched : Nat → Bool) (bsize ds : Nat) : List PEv :=
  let total := min bsize ds
  let p := backupLoop sched total (total + 1) 0 0 0
  backupPre ++ p.1 ++
    (if sched p.2 then [PEv.log, PEv.progress 100, PEv.finished true]
     else [PEv.log, PEv.finished false])

/-! ### `QualityCheckWorker.run`

The config, the enabled-step count, and the five steps.  The step chain
threads `(trace, c, k)` where `c` counts cancel-flag reads and `k` is
`current_test`; `.error tr` models a raised exception (the worker's
`except` block then appends a failure log and `Finished{ok=false}`).
`N` is `test_count` and the progress formulas
`int((current_test - 0.5) * 100 / test_count)` and
`int(current_test * 100 / test_count)` are modelled as
`(2*k - 1) * 50 / N` and `k * 100 / N`. -/

structure QualityCheckConfig where
  enable_sram_test : Bool
  enable_flash_erase : Bool
  enable_ppb_unlock : Bool
  enable_fast_flash : Bool
  enable_full_sram : Bool
  enable_ram_flash : Bool
deriving DecidableEq, Repr

/-- `test_count`: number of enabled steps (erase-blank and fast-flash
count as one step). -/
def qaTestCount (cfg : QualityCheckConfig) : Nat :=
  (cond cfg.enable_sram_test 1 0) + (cond (cfg.enable_flash_erase || cfg.enable_fast_flash) 1 0) +
  (cond cfg.enable_ppb_unlock 1 0) + (cond cfg.enable_full_sram 1 0) +
  (cond cfg.enable_ram_flash 1 0)

/-- Sequencing of QA steps with exception propagation. -/
def qaSeq (a : Except (List PEv) (List PEv × Nat × Nat))
    (f : Nat → Nat → Except (List PEv) (List PEv × Nat × Nat)) :
    Except (List PEv) (List PEv × Nat × Nat) :=
  match a with
  | .error tr => .error tr
  | .ok (tr, c, k) =>
    match f c k with
    | .error tr2 => .error (tr ++ tr2)
    | .ok (tr2, c2, k2) => .ok (tr ++ tr2, c2, k2)

/-- Step 1 — basic SRAM test: bank 0, write `AA 55 12 34` at RAM 0, read
back 4 bytes, fail on mismatch.  `ramRead addr len` is the `readRam`
oracle. -/
def qaStep1 (cfg : QualityCheckConfig) (sched : Nat → Bool)
    (ramRead : Nat → Nat → List Nat) (N c k : Nat) :
    Except (List PEv) (List PEv × Nat × Nat) :=
  if cfg.enable_sram_test then
    if sched c then
      let k1 := k + 1
      let evs := [PEv.log, PEv.progress ((2 * k1 - 1) * 50 / N), PEv.sramSel 0, PEv.sleep,
        PEv.writeRam 0 [0xAA, 0x55, 0x12, 0x34], PEv.sleep, PEv.readRam 0 4]
      if ramRead 0 4 ≠ [0xAA, 0x55, 0x12, 0x34] then .error evs
      else .ok (evs ++ [PEv.log, PEv.progress (k1 * 100 / N)], c + 1, k1)
    else .ok ([], c + 1, k)
  else .ok ([], c, k)

/-- The test pattern of the full SRAM check: `(addr + i) & 0xFF`. -/
def sramPat (addr n : Nat) : List Nat := (List.range n).map (fun i => (addr + i) % 256)

/-- Inner loop of the full SRAM check over the 1 KiB chunk offsets:
switch bank on 64 KiB boundaries, write the pattern, read back, compare. -/
def qaSramLoop (ramRead : Nat → Nat → List Nat) : List Nat → Except (List PEv) (List PEv)
  | [] => .ok []
  | addr :: rest =>
    let bEvs := if addr % 65536 = 0 then [PEv.sramSel (addr / 65536), PEv.log] else []
    let pat := sramPat addr 1024
    let evs := bEvs ++ [PEv.writeRam addr pat, PEv.readRam addr 1024]
    if ramRead addr 1024 ≠ pat then .error evs
    else
      match qaSramLoop ramRead rest with
      | .error t => .error (evs ++ t)
      | .ok t => .ok (evs ++ t)

/-- Step 2 — full 128 KiB SRAM test (`range(0, 65536*2, 1024)`). -/
def qaStep2 (cfg : QualityCheckConfig) (sched : Nat → Bool)
    (ramRead : Nat → Nat → List Nat) (N c k : Nat) :
    Except (List PEv) (List PEv × Nat × Nat) :=
  if cfg.enable_full_sram then
    if sched c then
      let k1 := k + 1
      let pre := [PEv.log, PEv.progress ((2 * k1 - 1) * 50 / N), PEv.sramSel 0, PEv.sleep]
      match qaSramLoop ramRead ((List.range 128).map (· * 1024)) with
      | .error t => .error (pre ++ t)
      | .ok t => .ok (pre ++ t ++ [PEv.log, PEv.progress (k1 * 100 / N)], c + 1, k1)
    else .ok ([], c + 1, k)
  else .ok ([], c, k)

/-- Step 3 — PPB unlock: write-enable mode, identity mapping, `unlockPPB`. -/
def qaStep3 (cfg : QualityCheckConfig) (sched : Nat → Bool) (N c k : Nat) :
    Except (List PEv) (List PEv × Nat × Nat) :=
  if cfg.enable_ppb_unlock then
    if sched c then
      let k1 := k + 1
      .ok ([PEv.log, PEv.progress ((2 * k1 - 1) * 50 / N), PEv.setMode 0 0 1 0 8,
        PEv.setMapping (mapSeg 0), PEv.unlockPPB, PEv.log, PEv.progress (k1 * 100 / N)],
        c + 1, k1)
    else .ok ([], c + 1, k)
  else .ok ([], c, k)

/-- Erase loop over one fast-flash test region: sector `i` of the region
starting at byte `s`, erased at the *absolute* word address `addr >> 1`
(the QA worker performs no segment retuning).  `n` is the running
`erased_sectors` counter (a log every 10 sectors). -/
def qaEraseRegion (ss s : Nat) : List Nat → Nat → List PEv × Nat
  | [], n => ([], n)
  | i :: rest, n =>
    let addr := s + i * ss
    let evs := PEv.erase addr (addr / 2) (ss / 2) ::
      (if (n + 1) % 10 = 0 then [PEv.log] else [])
    let p := qaEraseRegion ss s rest (n + 1)
    (evs ++ p.1, p.2)

/-- Erase all fast-flash test regions in order. -/
def qaEraseRegions (ss : Nat) : List (Nat × Nat) → Nat → List PEv
  | [], _ => []
  | (s, e) :: rest, n =>
    let p := qaEraseRegion ss s (List.range ((e - s) / ss)) n
    p.1 ++ qaEraseRegions ss rest p.2

/-- The read offsets of `range(start, end, 4096)`. -/
def qaVerifyAddrs (s e : Nat) : List Nat :=
  (List.range ((e - s + 4095) / 4096)).map (fun j => s + j * 4096)

/-- Blank-check loop over one region: read `min(4096, end - addr)` bytes
at the absolute word address `addr >> 1` and fail unless all `0xFF`.
`fread L len` is the `readRom` oracle for the read starting at byte `L`. -/
def qaVerifyRegion (fread : Nat → Nat → List Nat) (e : Nat) :
    List Nat → Except (List PEv) (List PEv)
  | [] => .ok []
  | a :: rest =>
    let len := min 4096 (e - a)
    let ev := PEv.readF a (a / 2) len
    if (fread a len).all (· == 0xff) then
      match qaVerifyRegion fread e rest with
      | .error t => .error (ev :: t)
      | .ok t => .ok (ev :: t)
    else .error [ev]

/-- Blank-check all regions in order. -/
def qaVerifyRegions (fread : Nat → Nat → List Nat) :
    List (Nat × Nat) → Except (List PEv) (List PEv)
  | [] => .ok []
  | (s, e) :: rest =>
    match qaVerifyRegion fread e (qaVerifyAddrs s e) with
    | .error t => .error t
    | .ok t =>
      match qaVerifyRegions fread rest with
      | .error t2 => .error (t ++ t2)
      | .ok t2 => .ok (t ++ t2)

/-- Step 4 — flash erase-blank or fast flash check, mutually exclusive in
the code path (`if enable_fast_flash ... else` full-chip check).  For the
fast check, `ds`/`ss` come from the CFI reply and `r1..r4` are the four
`random.randint(4 MiB, device_size - 6 MiB)` draws, each aligned down to
a sector boundary; the regions are the first 4 MiB, the last 4 MiB, and
the four 2 MiB random windows. -/
def qaStep4 (cfg : QualityCheckConfig) (sched : Nat → Bool)
    (fread : Nat → Nat → List Nat) (ds ss r1 r2 r3 r4 : Nat) (N c k : Nat) :
    Except (List PEv) (List PEv × Nat × Nat) :=
  if cfg.enable_flash_erase || cfg.enable_fast_flash then
    if sched c then
      let k1 := k + 1
      let modeEvs := [PEv.setMode 0 0 1 0 8, PEv.setMapping (mapSeg 0)]
      if cfg.enable_fast_flash then
        let pre := modeEvs ++ [PEv.log, PEv.progress ((2 * k1 - 1) * 50 / N), PEv.getCFI]
        let regions := [(0, 4194304), (ds - 4194304, ds)] ++
          ([r1, r2, r3, r4].map (fun r => ((r / ss) * ss, (r / ss) * ss + 2097152)))
        let eEvs := qaEraseRegions ss regions 0
        match qaVerifyRegions fread regions with
        | .error t => .error (pre ++ eEvs ++ t)
        | .ok t => .ok (pre ++ eEvs ++ t ++ [PEv.log, PEv.progress (k1 * 100 / N)], c + 1, k1)
      else
        let pre := modeEvs ++ [PEv.log, PEv.progress ((2 * k1 - 1) * 50 / N), PEv.readF 0 0 512]
        let evs := pre ++
          (if (fread 0 512).all (· == 0xff) then [PEv.log]
           else [PEv.log, PEv.eraseChip, PEv.log])
        .ok (evs ++ [PEv.progress (k1 * 100 / N)], c + 1, k1)
    else .ok ([], c + 1, k)
  else .ok ([], c, k)

/-- Step 5 — backup-flash probe through the RAM interface: three unlock
writes with 1 ms gaps, read manufacturer and device id, exit ID mode;
pass iff neither id is `0xFFFF`. -/
def qaStep5 (cfg : QualityCheckConfig) (sched : Nat → Bool)
    (ramRead : Nat → Nat → List Nat) (N c k : Nat) :
    Except (List PEv) (List PEv × Nat × Nat) :=
  if cfg.enable_ram_flash then
    if sched c then
      let k1 := k + 1
      let evs := [PEv.log, PEv.progress ((2 * k1 - 1) * 50 / N),
        PEv.writeRam 0x5555 [0xAA], PEv.sleep, PEv.writeRam 0x2AAA [0x55], PEv.sleep,
        PEv.writeRam 0 [0x90], PEv.sleep, PEv.readRam 0 2, PEv.readRam 2 2,
        PEv.writeRam 0 [0xF0]]
      if ramRead 0 2 ≠ [0xff, 0xff] ∧ ramRead 2 2 ≠ [0xff, 0xff] then
        .ok (evs ++ [PEv.log, PEv.progress (k1 * 100 / N)], c + 1, k1)
      else .error evs
    else .ok ([], c + 1, k)
  else .ok ([], c, k)

/-- `QualityCheckWorker.run`: emit the start log; when no step is enabled
report `Finished{ok=false}` immediately (no device interaction at all);
otherwise run the five steps in order, ending with `progress 100` and
`Finished{ok=true}`, while a raised exception ends with a failure log and
`Finished{ok=false}`. -/
def qaRun (cfg : QualityCheckConfig) (sched : Nat → Bool)
    (ramRead fread : Nat → Nat → List Nat) (ds ss r1 r2 r3 r4 : Nat) : List PEv :=
  let N := qaTestCount cfg
  if N = 0 then [PEv.log, PEv.log, PEv.finished false]
  else
    let b1 := qaSeq (.ok ([], 0, 0)) (qaStep1 cfg sched ramRead N)
    let b2 := qaSeq b1 (qaStep2 cfg sched ramRead N)
    let b3 := qaSeq b2 (qaStep3 cfg sched N)
    let b4 := qaSeq b3 (qaStep4 cfg sched fread ds ss r1 r2 r3 r4 N)
    let b5 := qaSeq b4 (qaStep5 cfg sched ramRead N)
    match b5 with
    | .error tr => PEv.log :: tr ++ [PEv.log, PEv.finished false]
    | .ok (tr, _, _) => PEv.log :: tr ++ [PEv.progress 100, PEv.log, PEv.finished true]

/-! ## Helper lemmas -/

theorem dec16_le16_append (n : Nat) (r : List Nat) (h : n < 65536) :
    dec16 (le16 n ++ r) = n := by
  simp [dec16, le16]
  omega

theorem byte_getD_lt {cfi : List Nat} (hb : ∀ b ∈ cfi, b < 256) (i : Nat) :
    cfi.getD i 0 < 256 := by
  rcases h : cfi[i]? with _ | x
  · simp [List.getD_eq_getElem?_getD, h]
  · have hx : x ∈ cfi := List.getElem?_mem h
    simp only [List.getD_eq_getElem?_getD, h, Option.getD_some]
    exact hb x hx

/-- `((a & 0xFF) << 8) | (b & 0xFF)` in arithmetic form. -/
theorem word_combine (a b : Nat) :
    ((a &&& 0xff) <<< 8) ||| (b &&& 0xff) = 256 * (a % 256) + b % 256 := by
  have h1 : a &&& 0xff = a % 256 := by
    have := Nat.and_pow_two_sub_one_eq_mod a 8
    norm_num at this
    exact this
  have h2 : b &&& 0xff = b % 256 := by
    have := Nat.and_pow_two_sub_one_eq_mod b 8
    norm_num at this
    exact this
  rw [h1, h2, Nat.shiftLeft_eq, Nat.mul_comm,
    ← Nat.mul_add_lt_is_or (show b % 256 < 2 ^ 8 by omega) (a % 256)]

/-! ## Claim theorems -/

/-- C4: every command frame emitted by `writeRom`, `readRom`, `writeRam`,
`readRam` and `programRom` carries, in its first two bytes (little-endian
u16), the total byte count of the frame including the size field itself,
the opcode, the body, and the trailing zero-filled CRC placeholder.  The
bounds are exactly the condition under which `struct.pack("<H", size)`
succeeds, i.e. under which the frame is emitted at all. -/
theorem frame_size_field :
    (∀ addrWord dat, 2 + 1 + 4 + List.length dat + 2 < 65536 →
      dec16 (writeRomFrame addrWord dat) = (writeRomFrame addrWord dat).length) ∧
    (∀ addrWord lengthByte,
      dec16 (readRomFrame addrWord lengthByte) = (readRomFrame addrWord lengthByte).length) ∧
    (∀ addr dat, 2 + 1 + 4 + List.length dat + 2 < 65536 →
      dec16 (writeRamFrame addr dat) = (writeRamFrame addr dat).length) ∧
    (∀ addr lengthByte,
      dec16 (readRamFrame addr lengthByte) = (readRamFrame addr lengthByte).length) ∧
    (∀ addrByte data bs, 2 + 1 + 4 + 2 + List.length data + 2 < 65536 →
      dec16 (programRomFrame addrByte data bs) = (programRomFrame addrByte data bs).length) := by
  refine ⟨fun a dat h => ?_, fun a n => ?_, fun a dat h => ?_, fun a n => ?_,
    fun a dat bs h => ?_⟩
  · simp only [writeRomFrame, List.append_assoc]
    rw [dec16_le16_append _ _ h]
    simp [le16, le32]
    omega
  · simp [readRomFrame, dec16, le16, le32]
  · simp only [writeRamFrame, List.append_assoc]
    rw [dec16_le16_append _ _ h]
    simp [le16, le32]
    omega
  · simp [readRamFrame, dec16, le16, le32]
  · simp only [programRomFrame, List.append_assoc]
    rw [dec16_le16_append _ _ h]
    simp [le16, le32]
    omega

theorem frame_size_field_witness :
    dec16 (writeRomFrame 0 [1, 2]) = (writeRomFrame 0 [1, 2]).length ∧
    dec16 (writeRamFrame 3 [4]) = (writeRamFrame 3 [4]).length ∧
    dec16 (programRomFrame 0 [5, 6] 512) = (programRomFrame 0 [5, 6] 512).length :=
  ⟨frame_size_field.1 0 [1, 2] (by decide),
   frame_size_field.2.2.1 3 [4] (by decide),
   frame_size_field.2.2.2.2 0 [5, 6] 512 (by decide)⟩

/-- C5: the CFI query writes `0x98` to word `0x55`, reads 20 bytes at word
`0x27`, writes `0xF0` to word `0x00`, and interprets the response bytes
as little-endian 16-bit values `v[i]` with `device_size = 2^v[0]`,
`buffer_write_bytes = 2^v[3]` (or 0 when `v[3] = 0`),
`sector_count = ((v[7] & 0xFF) << 8 | (v[6] & 0xFF)) + 1` and
`sector_size = ((v[9] & 0xFF) << 8 | (v[8] & 0xFF)) * 256`; for byte
values the bitwise formulas are also given arithmetically. -/
theorem getRomCFI_correct (cfi : List Nat) (hb : ∀ b ∈ cfi, b < 256) :
    (getRomCFI_parse cfi).device_size = 2 ^ cfiWord cfi 0 ∧
    (getRomCFI_parse cfi).buffer_write_bytes =
      (if cfiWord cfi 3 ≠ 0 then 2 ^ cfiWord cfi 3 else 0) ∧
    (getRomCFI_parse cfi).sector_count =
      (((cfiWord cfi 7 &&& 0xff) <<< 8) ||| (cfiWord cfi 6 &&& 0xff)) + 1 ∧
    (getRomCFI_parse cfi).sector_count = 256 * cfi.getD 14 0 + cfi.getD 12 0 + 1 ∧
    (getRomCFI_parse cfi).sector_size =
      ((((cfiWord cfi 9 &&& 0xff) <<< 8) ||| (cfiWord cfi 8 &&& 0xff))) * 256 ∧
    (getRomCFI_parse cfi).sector_size = (256 * cfi.getD 18 0 + cfi.getD 16 0) * 256 ∧
    getRomCFI_acts = [Act.wr 0x55 0x98, Act.rd 0x27 20, Act.wr 0x00 0xf0] := by
  have h12 := byte_getD_lt hb 12
  have h14 := byte_getD_lt hb 14
  have h16 := byte_getD_lt hb 16
  have h18 := byte_getD_lt hb 18
  refine ⟨rfl, rfl, rfl, ?_, rfl, ?_, rfl⟩
  · show (((u16at cfi 14 &&& 0xff) <<< 8) ||| (u16at cfi 12 &&& 0xff)) + 1 = _
    rw [word_combine]
    simp only [u16at]
    omega
  · show ((((u16at cfi 18 &&& 0xff) <<< 8) ||| (u16at cfi 16 &&& 0xff))) * 256 = _
    rw [word_combine]
    simp only [u16at]
    omega

theorem getRomCFI_correct_witness :
    (getRomCFI_parse [23, 0, 0, 0, 0, 0, 9, 0, 0, 0, 0, 0, 255, 0, 1, 0, 0, 0, 2, 0]).sector_count =
      256 * 1 + 255 + 1 ∧
    (getRomCFI_parse [23, 0, 0, 0, 0, 0, 9, 0, 0, 0, 0, 0, 255, 0, 1, 0, 0, 0, 2, 0]).sector_size =
      (256 * 2 + 0) * 256 :=
  ⟨(getRomCFI_correct _ (by decide)).2.2.2.1,
   (getRomCFI_correct _ (by decide)).2.2.2.2.2.1⟩

/-- C6: a mode-set call performs exactly four `writeRom` writes, all to the
magic word address `MAGIC_ADDRESS >> 1`, carrying `0xA55A`, `0xA55A`,
`config`, `config` in that order, with
`config = (ctrl << 4) | (sdram | (sd_enable << 1) | (write_enable << 2) | (sram_bank << 3))`. -/
theorem set_sc_mode_magic_writes (sdram sd_enable write_enable sram_bank ctrl : Nat) :
    set_sc_mode_acts sdram sd_enable write_enable sram_bank ctrl =
      [Act.wr magicWord 0xA55A, Act.wr magicWord 0xA55A,
       Act.wr magicWord ((ctrl <<< 4) |||
         (sdram ||| (sd_enable <<< 1) ||| (write_enable <<< 2) ||| (sram_bank <<< 3))),
       Act.wr magicWord ((ctrl <<< 4) |||
         (sdram ||| (sd_enable <<< 1) ||| (write_enable <<< 2) ||| (sram_bank <<< 3)))] ∧
    ((set_sc_mode_acts sdram sd_enable write_enable sram_bank ctrl).filter
      (isWrTo magicWord)).length = 4 := by
  constructor
  · rfl
  · simp [set_sc_mode_acts, isWrTo]

/-- C7: with a mapping of length 8, `set_flashmapping` performs exactly 32
`writeRom` writes, all to the magic word address, in the order
`0xA558, 0xA558, mapping[i], mapping[i]` for `i = 0..7`; with any other
length it raises `ValueError` and performs no device write at all. -/
theorem set_flashmapping_writes (m : List Nat) :
    (m.length = 8 → set_flashmapping m = some
      [Act.wr magicWord 0xA558, Act.wr magicWord 0xA558,
       Act.wr magicWord (m.getD 0 0), Act.wr magicWord (m.getD 0 0),
       Act.wr magicWord 0xA558, Act.wr magicWord 0xA558,
       Act.wr magicWord (m.getD 1 0), Act.wr magicWord (m.getD 1 0),
       Act.wr magicWord 0xA558, Act.wr magicWord 0xA558,
       Act.wr magicWord (m.getD 2 0), Act.wr magicWord (m.getD 2 0),
       Act.wr magicWord 0xA558, Act.wr magicWord 0xA558,
       Act.wr magicWord (m.getD 3 0), Act.wr magicWord (m.getD 3 0),
       Act.wr magicWord 0xA558, Act.wr magicWord 0xA558,
       Act.wr magicWord (m.getD 4 0), Act.wr magicWord (m.getD 4 0),
       Act.wr magicWord 0xA558, Act.wr magicWord 0xA558,
       Act.wr magicWord (m.getD 5 0), Act.wr magicWord (m.getD 5 0),
       Act.wr magicWord 0xA558, Act.wr magicWord 0xA558,
       Act.wr magicWord (m.getD 6 0), Act.wr magicWord (m.getD 6 0),
       Act.wr magicWord 0xA558, Act.wr magicWord 0xA558,
       Act.wr magicWord (m.getD 7 0), Act.wr magicWord (m.getD 7 0)]) ∧
    (∀ l, set_flashmapping m = some l →
      l.length = 32 ∧ l.all (isWrTo magicWord) = true) ∧
    (m.length ≠ 8 → set_flashmapping m = none) := by
  refine ⟨fun h => ?_, fun l hl => ?_, fun h => ?_⟩
  · unfold set_flashmapping
    rw [if_neg (by simp [h])]
    rfl
  · unfold set_flashmapping at hl
    by_cases h8 : m.length = 8
    · rw [if_neg (by simp [h8])] at hl
      cases hl
      constructor
      · rfl
      · simp [flashmapWrites, isWrTo, List.range_succ]
    · rw [if_pos h8] at hl
      cases hl
  · unfold set_flashmapping
    rw [if_pos h]

theorem set_flashmapping_writes_witness :
    (set_flashmapping [9, 10, 11, 12, 13, 14, 15, 16]).isSome = true ∧
    set_flashmapping [1, 2, 3] = none := by
  constructor
  · rw [(set_flashmapping_writes [9, 10, 11, 12, 13, 14, 15, 16]).1 (by decide)]
    rfl
  · exact (set_flashmapping_writes [1, 2, 3]).2.2 (by decide)

theorem eraseSectorPoll_eq (a : Nat) (polls : List Nat) :
    eraseSectorPoll a polls = (idxFFFF polls).map (pollTr a) := by
  induction polls with
  | nil => rfl
  | cons v rest ih =>
    by_cases hv : v = 0xffff
    · simp [eraseSectorPoll, idxFFFF, hv, pollTr]
    · simp only [eraseSectorPoll, idxFFFF, if_neg hv, ih]
      cases idxFFFF rest <;> simp [pollTr]

/-- C8: `eraseSector` at word address `A` issues exactly the writes
`0xAA→0x555`, `0x55→0x2AA`, `0x80→0x555`, `0xAA→0x555`, `0x55→0x2AA`,
`0x30→A`, sleeps 10 ms, then polls word `A` with 2-byte reads, sleeping
100 ms between unsuccessful polls, and succeeds exactly when some poll
reads `0xFFFF` — the trace ends with that successful read (`idxFFFF` is
the index of the first `0xFFFF` poll; the result is `none`, i.e. the
Python loop never returns, when the oracle never supplies `0xFFFF`). -/
theorem eraseSector_sequence (a z : Nat) (polls : List Nat) :
    eraseSector_acts a z polls = (idxFFFF polls).map (fun n =>
      [Act.wr 0x555 0xaa, Act.wr 0x2aa 0x55, Act.wr 0x555 0x80,
       Act.wr 0x555 0xaa, Act.wr 0x2aa 0x55, Act.wr a 0x30, Act.sleep 10] ++ pollTr a n) ∧
    ((idxFFFF polls).isSome ↔ 0xffff ∈ polls) := by
  constructor
  · unfold eraseSector_acts
    rw [eraseSectorPoll_eq]
    cases idxFFFF polls <;> simp
  · induction polls with
    | nil => simp [idxFFFF]
    | cons v rest ih =>
      by_cases hv : v = 0xffff
      · simp [idxFFFF, hv]
      · simp [idxFFFF, hv, ih, Ne.symm hv]

/-! ## The segment-mapping invariant for production and backup -/

theorem mappingOk_append (m0 : Nat) (xs ys : List PEv) :
    mappingOk m0 (xs ++ ys) = (mappingOk m0 xs && mappingOk (xs.foldl mapFold m0) ys) := by
  induction xs generalizing m0 with
  | nil => simp [mappingOk]
  | cons e t ih => simp [mappingOk, ih, Bool.and_assoc]

theorem mappingOk_logIf (m0 : Nat) (P : Prop) [Decidable P] (ys : List PEv) :
    mappingOk m0 ((if P then [PEv.log] else []) ++ ys) = mappingOk m0 ys := by
  by_cases h : P <;> simp [h, mappingOk, accessOk, mapFold]

theorem mappingOk_progIf (m0 : Nat) (P : Prop) [Decidable P] (x : Nat) (ys : List PEv) :
    mappingOk m0 ((if P then [PEv.progress x, PEv.log] else []) ++ ys) = mappingOk m0 ys := by
  by_cases h : P <;> simp [h, mappingOk, accessOk, mapFold]

theorem mappingOk_prodPre (m0 : Nat) : mappingOk m0 prodPre = true := by
  simp [prodPre, mappingOk, accessOk, mapFold, mapSeg]

theorem prodPre_fold (m0 : Nat) : prodPre.foldl mapFold m0 = 0 := by
  simp [prodPre, mapFold, mapSeg]

theorem mappingOk_prodMid (m0 : Nat) : mappingOk m0 prodMid = true := by
  simp [prodMid, mappingOk, accessOk, mapFold, mapSeg]

theorem prodMid_fold (m0 : Nat) : prodMid.foldl mapFold m0 = 0 := by
  simp [prodMid, mapFold, mapSeg]

theorem mappingOk_backupPre (m0 : Nat) : mappingOk m0 backupPre = true := by
  simp [backupPre, mappingOk, accessOk, mapFold, mapSeg]

theorem backupPre_fold (m0 : Nat) : backupPre.foldl mapFold m0 = 0 := by
  simp [backupPre, mapFold, mapSeg]

theorem beq_eight_mul (x : Nat) : (8 * x == x * 8) = true := by
  simp [Nat.mul_comm]

theorem prodEraseLoop_mappingOk (sched : Nat → Bool) (ss cnt : Nat) (idxs : List Nat) :
    ∀ c cs, mappingOk (8 * cs) (prodEraseLoop sched ss cnt idxs c cs).1 = true := by
  induction idxs with
  | nil => intro c cs; simp [prodEraseLoop, mappingOk]
  | cons i rest ih =>
    intro c cs
    by_cases hs : sched c = true
    · by_cases hns : i * ss / SEGMENT = cs
      · simp [prodEraseLoop, hs, hns, mappingOk, accessOk, mapFold, List.append_assoc,
          mappingOk_logIf, ih, beq_eight_mul]
      · simp [prodEraseLoop, hs, hns, mappingOk, accessOk, mapFold, mapSeg, List.append_assoc,
          mappingOk_logIf, ih, beq_eight_mul]
    · simp [prodEraseLoop, hs, mappingOk, accessOk, mapFold]

set_option maxRecDepth 4000 in
theorem prodProgLoop_mappingOk (sched ack : Nat → Bool) (size : Nat) (rom1 : List Nat)
    (bs : Nat) (fuel : Nat) :
    ∀ w c cs, mappingOk (8 * cs) (prodProgLoop sched ack size rom1 bs fuel w c cs).1 = true := by
  induction fuel with
  | zero => intro w c cs; simp [prodProgLoop, mappingOk]
  | succ fuel ih =>
    intro w c cs
    by_cases hw : w < size
    · by_cases hs : sched c = true
      · by_cases hns : w / SEGMENT = cs
        · by_cases ha : ack w = true
          · simp [prodProgLoop, hw, hs, hns, ha, mappingOk, accessOk, mapFold,
              List.append_assoc, mappingOk_logIf, ih, beq_eight_mul]
          · simp [prodProgLoop, hw, hs, hns, ha, mappingOk, accessOk, mapFold,
              List.append_assoc, beq_eight_mul]
        · by_cases ha : ack w = true
          · simp [prodProgLoop, hw, hs, hns, ha, mappingOk, accessOk, mapFold, mapSeg,
              List.append_assoc, mappingOk_logIf, ih, beq_eight_mul]
          · simp [prodProgLoop, hw, hs, hns, ha, mappingOk, accessOk, mapFold, mapSeg,
              List.append_assoc, beq_eight_mul]
      · simp [prodProgLoop, hw, hs, mappingOk]
    · simp [prodProgLoop, hw, mappingOk]

theorem prodVerLoop_mappingOk (sched : Nat → Bool) (vread : Nat → Nat → List Nat)
    (size : Nat) (rom1 : List Nat) (fuel : Nat) :
    ∀ v c cs, mappingOk (8 * cs) (prodVerLoop sched vread size rom1 fuel v c cs).1 = true := by
  induction fuel with
  | zero => intro v c cs; simp [prodVerLoop, mappingOk]
  | succ fuel ih =>
    intro v c cs
    by_cases hv : v < size
    · by_cases hs : sched c = true
      · by_cases hns : v / SEGMENT = cs
        · by_cases hr : vread v (min 4096 (size - v)) = (rom1.drop v).take (min 4096 (size - v))
          · simp [prodVerLoop, hv, hs, hns, hr, mappingOk, accessOk, mapFold,
              List.append_assoc, mappingOk_logIf, ih, beq_eight_mul]
          · simp [prodVerLoop, hv, hs, hns, hr, mappingOk, accessOk, mapFold,
              List.append_assoc, beq_eight_mul]
        · by_cases hr : vread v (min 4096 (size - v)) = (rom1.drop v).take (min 4096 (size - v))
          · simp [prodVerLoop, hv, hs, hns, hr, mappingOk, accessOk, mapFold, mapSeg,
              List.append_assoc, mappingOk_logIf, ih, beq_eight_mul]
          · simp [prodVerLoop, hv, hs, hns, hr, mappingOk, accessOk, mapFold, mapSeg,
              List.append_assoc, beq_eight_mul]
      · simp [prodVerLoop, hv, hs, mappingOk]
    · simp [prodVerLoop, hv, mappingOk]

theorem backupLoop_mappingOk (sched : Nat → Bool) (total : Nat) (fuel : Nat) :
    ∀ rb c cs, mappingOk (8 * cs) (backupLoop sched total fuel rb c cs).1 = true := by
  induction fuel with
  | zero => intro rb c cs; simp [backupLoop, mappingOk]
  | succ fuel ih =>
    intro rb c cs
    by_cases hrb : rb < total
    · by_cases hs : sched c = true
      · by_cases hns : rb / SEGMENT = cs
        · simp [backupLoop, hrb, hs, hns, mappingOk, accessOk, mapFold,
            List.append_assoc, mappingOk_progIf, ih, beq_eight_mul]
        · simp [backupLoop, hrb, hs, hns, mappingOk, accessOk, mapFold, mapSeg,
            List.append_assoc, mappingOk_progIf, ih, beq_eight_mul]
      · simp [backupLoop, hrb, hs, mappingOk]
    · simp [backupLoop, hrb, mappingOk]

theorem prodRunWithCnt_mappingOk (rom1 : List Nat) (cnt ss bs : Nat) (sched ack : Nat → Bool)
    (vread : Nat → Nat → List Nat) (m0 : Nat) :
    mappingOk m0 (prodRunWithCnt rom1 cnt ss bs sched ack vread) = true := by
  have hE : mappingOk 0 (prodEraseLoop sched ss cnt (List.range cnt) 0 0).1 = true := by
    simpa using prodEraseLoop_mappingOk sched ss cnt (List.range cnt) 0 0
  have hP : ∀ c, mappingOk 0 (prodProgLoop sched ack rom1.length rom1 bs
      (rom1.length / 2048 + 2) 0 c 0).1 = true := fun c => by
    simpa using prodProgLoop_mappingOk sched ack rom1.length rom1 bs
      (rom1.length / 2048 + 2) 0 c 0
  have hV : ∀ c, mappingOk 0 (prodVerLoop sched vread rom1.length rom1
      (rom1.length + 1) 0 c 0).1 = true := fun c => by
    simpa using prodVerLoop_mappingOk sched vread rom1.length rom1 (rom1.length + 1) 0 c 0
  simp only [prodRunWithCnt]
  split
  · simp [mappingOk_append, List.foldl_append, mappingOk_prodPre, prodPre_fold, hE]
  · split
    · simp [mappingOk_append, List.foldl_append, mappingOk_prodPre, prodPre_fold,
        mappingOk_prodMid, prodMid_fold, hE, hP, mappingOk, accessOk, mapFold, mapSeg]
    · split
      · split
        · simp [mappingOk_append, List.foldl_append, mappingOk_prodPre, prodPre_fold,
            mappingOk_prodMid, prodMid_fold, hE, hP, hV, mappingOk, accessOk, mapFold, mapSeg]
        · simp [mappingOk_append, List.foldl_append, mappingOk_prodPre, prodPre_fold,
            mappingOk_prodMid, prodMid_fold, hE, hP, hV, mappingOk, accessOk, mapFold, mapSeg]
      · simp [mappingOk_append, List.foldl_append, mappingOk_prodPre, prodPre_fold,
          mappingOk_prodMid, prodMid_fold, hE, hP, mappingOk, accessOk, mapFold, mapSeg]

theorem backupRun_mappingOk (sched : Nat → Bool) (bsize ds : Nat) (m0 : Nat) :
    mappingOk m0 (backupRun sched bsize ds) = true := by
  have hB : ∀ c, mappingOk 0 (backupLoop sched (min bsize ds) (min bsize ds + 1) 0 c 0).1
      = true := fun c => by
    simpa using backupLoop_mappingOk sched (min bsize ds) (min bsize ds + 1) 0 c 0
  simp only [backupRun]
  split <;>
    simp [mappingOk_append, List.foldl_append, mappingOk_backupPre, backupPre_fold, hB,
      mappingOk, accessOk, mapFold, mapSeg]

/-! ## Plan-level claim theorems -/

/-- QA config with only the fast flash check enabled. -/
def cfgFastOnly : QualityCheckConfig := ⟨false, false, false, true, false, false⟩

/-- QA config with only PPB unlock enabled. -/
def cfgPpbOnly : QualityCheckConfig := ⟨false, false, true, false, false, false⟩

/-- QA config with every step disabled. -/
def cfgAllOff : QualityCheckConfig := ⟨false, false, false, false, false, false⟩

/-- Events that correspond to serial device I/O (driver calls), as opposed
to UI events and sleeps. -/
def isDeviceEv : PEv → Bool
  | .log | .progress _ | .finished _ | .sleep => false
  | _ => true

def isEraseEv : PEv → Bool
  | .erase _ _ _ => true
  | _ => false

def isProgramEv : PEv → Bool
  | .program _ _ _ _ => true
  | _ => false

def isReadFEv : PEv → Bool
  | .readF _ _ _ => true
  | _ => false

def isFinishedEv : PEv → Bool
  | .finished _ => true
  | _ => false

/-- C1 (amended): for the production plan (erase, program and verify
phases) and for the backup plan, every flash access at logical byte
offset `L` happens while the active mapping satisfies
`mapping[0] = (L / SEGMENT) * 8` — for all images, CFI geometries, cancel
schedules and device responses, and from any initial mapping state.
(The fast-QA flash check does **not** maintain this invariant; see the
counterexample.) -/
theorem mapping_invariant_production_backup :
    (∀ rom ss bs sched ack vread m0,
      mappingOk m0 (prodRun rom ss bs sched ack vread) = true) ∧
    (∀ sched bsize ds m0, mappingOk m0 (backupRun sched bsize ds) = true) := by
  constructor
  · intro rom ss bs sched ack vread m0
    simp only [prodRun]
    exact prodRunWithCnt_mappingOk _ _ _ _ _ _ _ _
  · intro sched bsize ds m0
    exact backupRun_mappingOk sched bsize ds m0

set_option maxRecDepth 40000 in
/-- C1 counterexample: the fast-QA flash check on a 64 MiB device (sector
size 4 MiB, all four random windows drawn at 4 MiB) erases the tail-4 MiB
region — logical offset 60 MiB, so `(L / SEGMENT) * 8 = 8` — while the
identity mapping (`mapping[0] = 0`) set at the start of the step is still
active: the QA worker never reprograms the mapping, so the claimed
invariant is false for this plan.  (The `readRom` oracle returns `[0]`,
so the blank-check read that follows the erases fails; the violating
erase accesses are in the trace either way.) -/
theorem mapping_invariant_fastqa_counterexample :
    mappingOk 0 (qaRun cfgFastOnly (fun _ => true) (fun _ _ => []) (fun _ _ => [0])
      67108864 4194304 4194304 4194304 4194304 4194304) = false := by decide

/-- C2 (code-bug evidence): a QA run whose cancel flag is already cleared
at every poll (stop() called before the worker reaches its first step)
skips every enabled step and still emits `progress 100` and
`Finished{ok=true}` — the cancelled plan reports success, for any device
oracle.  (The spec says a cancelled plan stops and emits
`Finished{ok=false}` and never reports `ok=true`.) -/
theorem qa_cancelled_reports_success (ramRead fread : Nat → Nat → List Nat)
    (ds ss r1 r2 r3 r4 : Nat) :
    qaRun cfgPpbOnly (fun _ => false) ramRead fread ds ss r1 r2 r3 r4 =
      [PEv.log, PEv.progress 100, PEv.log, PEv.finished true] := rfl

/-- C3 (code-bug evidence): the production plan on the 3-byte image
`{01, 02, 03}` (padded to 4 bytes) emits the program-phase progress value
`50 + 2048 * 50 / 4 = 25650`, far above 100, because `written` is rounded
up to a multiple of the 2048-byte chunk before the division.  (128 KiB
sectors, buffer 512, all acks ok, verify reading back the padded image.) -/
theorem production_progress_exceeds_100 :
    PEv.progress 25650 ∈ prodRun [1, 2, 3] 131072 512 (fun _ => true) (fun _ => true)
      (fun v len => (([1, 2, 3, 0] : List Nat).drop v).take len) := by decide

set_option maxRecDepth 40000 in
/-- C9: production of the 3-byte image `{01, 02, 03}` (device with
128 KiB sectors; `bs` is the CFI buffer size, arbitrary): the image is
padded to `{01, 02, 03, 00}`; exactly one sector erase is issued (at word
address 0); exactly one buffered program is issued, of exactly 2048 bytes
whose bytes at offsets 4..2047 are all `0xFF`; the verify phase issues
exactly one flash read, of exactly 4 bytes at offset 0, and the run ends
successfully when the device returns the padded image for it. -/
theorem production_three_byte_image_scenario (bs : Nat) :
    ((prodRun [1, 2, 3] 131072 bs (fun _ => true) (fun _ => true)
        (fun v len => (([1, 2, 3, 0] : List Nat).drop v).take len)).filter isEraseEv =
      [PEv.erase 0 0 65536]) ∧
    ((prodRun [1, 2, 3] 131072 bs (fun _ => true) (fun _ => true)
        (fun v len => (([1, 2, 3, 0] : List Nat).drop v).take len)).filter isProgramEv =
      [PEv.program 0 0 ([1, 2, 3, 0] ++ List.replicate 2044 0xff) bs]) ∧
    ([1, 2, 3, 0] ++ List.replicate 2044 (0xff : Nat)).length = 2048 ∧
    ((prodRun [1, 2, 3] 131072 bs (fun _ => true) (fun _ => true)
        (fun v len => (([1, 2, 3, 0] : List Nat).drop v).take len)).filter isReadFEv =
      [PEv.readF 0 0 4]) ∧
    ((prodRun [1, 2, 3] 131072 bs (fun _ => true) (fun _ => true)
        (fun v len => (([1, 2, 3, 0] : List Nat).drop v).take len)).filter isFinishedEv =
      [PEv.finished true]) :=
  ⟨rfl, rfl, by rw [List.length_append, List.length_replicate]; rfl, rfl, rfl⟩

/-- C10: a QA run with every flag disabled emits only the start log, the
"no tests enabled" log and `Finished{ok=false}` — in particular it
performs no serial write or read to the device — for every cancel
schedule and device oracle. -/
theorem qa_no_enabled_steps (sched : Nat → Bool) (ramRead fread : Nat → Nat → List Nat)
    (ds ss r1 r2 r3 r4 : Nat) :
    qaRun cfgAllOff sched ramRead fread ds ss r1 r2 r3 r4 =
      [PEv.log, PEv.log, PEv.finished false] ∧
    (qaRun cfgAllOff sched ramRead fread ds ss r1 r2 r3 r4).filter isDeviceEv = [] :=
  ⟨rfl, rfl⟩
